import Mathlib

/-!
Shallow embedding of `src/tsdb/query_engine.go` (package `tsdb`): the
`Planner`, the `Mapper` contract, the `Executor` and the local `ShardMapper`,
together with models of the collaborators the file imports (`influxql`
conditions and rows, `meta` shard metadata).  Those collaborator packages
belong to this repository but are not under `src/`, so they are modelled from
the spec where noted.
-/

namespace Tsdb

/-- Go `time.Time` modelled as `Int` nanoseconds since the Unix epoch.  The
zero `time.Time` (January 1 of year 1) is the sentinel value `zeroTime`;
`t.IsZero()` becomes `t = zeroTime`. -/
def zeroTime : Int := -62135596800000000000

/-- Go `time.Unix(0, 0)`, the Unix epoch. -/
def epoch : Int := 0

/-- Modelled from the spec: a time-valued operand of the query condition
(`influxql`, part of this repository but not under `src/`): either the
`now()` marker or a literal instant. -/
inductive TimeExpr where
  | nowFn : TimeExpr
  | lit : Int → TimeExpr
deriving DecidableEq

/-- Modelled from the spec: a statement's time condition ("a time-valued
condition supporting current-instant substitution and range extraction").
`nil` is Go's nil condition; `timeGT e` / `timeLT e` are lower / upper
time bounds; `and` conjoins conditions. -/
inductive Condition where
  | nil : Condition
  | timeGT : TimeExpr → Condition
  | timeLT : TimeExpr → Condition
  | and : Condition → Condition → Condition
deriving DecidableEq

/-- Substitution of `now()` inside a time operand. -/
def reduceExpr (now : Int) : TimeExpr → TimeExpr
  | TimeExpr.nowFn => TimeExpr.lit now
  | TimeExpr.lit t => TimeExpr.lit t

/-- Modelled from the spec: `influxql.Reduce` with a `NowValuer` — replaces
instances of `now()` in the condition with the current instant. -/
def Reduce (now : Int) : Condition → Condition
  | Condition.nil => Condition.nil
  | Condition.timeGT e => Condition.timeGT (reduceExpr now e)
  | Condition.timeLT e => Condition.timeLT (reduceExpr now e)
  | Condition.and a b => Condition.and (Reduce now a) (Reduce now b)

/-- Combination of two optional lower time bounds: the more restrictive
(later) one wins. -/
def combineMin : Option Int → Option Int → Option Int
  | Option.none, b => b
  | Option.some a, Option.none => Option.some a
  | Option.some a, Option.some b => Option.some (max a b)

/-- Combination of two optional upper time bounds: the more restrictive
(earlier) one wins. -/
def combineMax : Option Int → Option Int → Option Int
  | Option.none, b => b
  | Option.some a, Option.none => Option.some a
  | Option.some a, Option.some b => Option.some (min a b)

/-- Optional lower/upper bounds extracted from a condition.  A bound whose
operand is still the unsubstituted `now()` marker contributes nothing. -/
def rangeOf : Condition → Option Int × Option Int
  | Condition.nil => (Option.none, Option.none)
  | Condition.timeGT (TimeExpr.lit t) => (Option.some t, Option.none)
  | Condition.timeGT TimeExpr.nowFn => (Option.none, Option.none)
  | Condition.timeLT (TimeExpr.lit t) => (Option.none, Option.some t)
  | Condition.timeLT TimeExpr.nowFn => (Option.none, Option.none)
  | Condition.and a b =>
      (combineMin (rangeOf a).1 (rangeOf b).1, combineMax (rangeOf a).2 (rangeOf b).2)

/-- A missing bound is Go's zero `time.Time`. -/
def optToTime : Option Int → Int
  | Option.none => zeroTime
  | Option.some t => t

/-- Modelled from the spec: `influxql.TimeRange` — extracts the `[min, max]`
time range of a condition, using the zero `time.Time` for an absent bound.
No consistency between the two bounds is enforced. -/
def TimeRange (c : Condition) : Int × Int :=
  (optToTime (rangeOf c).1, optToTime (rangeOf c).2)

/-- Zero-value defaulting performed by `Plan` (query_engine.go lines 62-67):
a zero max becomes the planning instant `now`, a zero min becomes the
epoch. -/
def defaultRange (now : Int) (r : Int × Int) : Int × Int :=
  (if r.1 = zeroTime then epoch else r.1, if r.2 = zeroTime then now else r.2)

/-- The time range `Plan` resolves for a condition: reduce, extract, then
apply the zero-value defaults. -/
def resolvedRange (now : Int) (c : Condition) : Int × Int :=
  defaultRange now (TimeRange (Reduce now c))

/-- Modelled from the spec: one entry of a statement's source list — either a
measurement reference (`influxql.Measurement`, carrying database, retention
policy and name) or some other source kind. -/
inductive Source where
  | measurement : String → String → String → Source
  | other : String → Source
deriving DecidableEq

/-- Whether a source is a measurement reference (Go's type assertion
`src.(*influxql.Measurement)` succeeding). -/
def Source.isMeasurement : Source → Bool
  | Source.measurement _ _ _ => true
  | Source.other _ => false

/-- Modelled from the spec: the fields of `influxql.SelectStatement` that
query_engine.go reads or writes — the source list and the time condition. -/
structure SelectStatement where
  sources : List Source
  condition : Condition
deriving DecidableEq

/-- Modelled from the spec: `meta.ShardInfo` — `Shard{id, ownerNodeID}`; a
shard is owned by exactly one cluster node. -/
structure ShardInfo where
  id : Nat
  ownerNodeID : Nat
deriving DecidableEq

/-- Go `sh.OwnedBy(nodeID)`. -/
def ShardInfo.ownedBy (sh : ShardInfo) (nodeID : Nat) : Bool :=
  sh.ownerNodeID == nodeID

/-- Modelled from the spec: `meta.ShardGroupInfo` — the shards covering one
bucketed time window. -/
structure ShardGroupInfo where
  shards : List ShardInfo
deriving DecidableEq

/-- A value implementing the `Mapper` interface, as far as `Plan`
distinguishes them: the local `&ShardMapper{}` appended for a locally owned
shard, or a mapper identity handed back by the Cluster collaborator. -/
inductive Mapper where
  | shardMapper : Mapper
  | clusterMapper : Nat → Mapper
deriving DecidableEq

/-- The `MetaStore` collaborator interface of `Planner` (query_engine.go
lines 31-34): shard-group lookup by time range plus the local node ID. -/
structure MetaStore where
  shardGroupsByTimeRange : String → String → Int → Int → Except String (List ShardGroupInfo)
  nodeID : Nat

/-- The `Cluster` collaborator interface of `Planner` (query_engine.go
lines 36-38): remote mapper construction by shard ID. -/
structure Cluster where
  newMapper : Nat → Except String Mapper

/-- The `Planner` (query_engine.go lines 30-41).  The `Logger` field is
omitted: it is write-only observability state. -/
structure Planner where
  metaStore : MetaStore
  cluster : Cluster

/-- Modelled from the spec: the output `Row{tagSet, payload, interval}`
(`influxql.Row` is part of this repository but not under `src/`). -/
structure Row where
  tagSet : String
  payload : Option Unit
  interval : Int
deriving DecidableEq

/-- The state of the Go channel `Execute` returns, over a whole run: the rows
ever sent on it and whether it was ever closed. -/
structure RowChannel where
  sent : List Row
  closed : Bool
deriving DecidableEq

/-- Outcome of one receive on a row channel after `alreadyReceived` rows have
been consumed: a value, the closed signal, or blocking forever. -/
inductive RecvOutcome where
  | value : Row → RecvOutcome
  | closedEmpty : RecvOutcome
  | blocked : RecvOutcome
deriving DecidableEq

/-- Semantics of a Go channel receive: the next sent-but-unconsumed value if
one ever exists, the zero-value/closed signal if the channel was closed, and
otherwise the receive blocks forever. -/
def recv (c : RowChannel) (alreadyReceived : Nat) : RecvOutcome :=
  match c.sent.drop alreadyReceived with
  | r :: _ => RecvOutcome.value r
  | [] => if c.closed then RecvOutcome.closedEmpty else RecvOutcome.blocked

/-- The `Executor` (query_engine.go lines 101-103): it owns the mapper
set. -/
structure Executor where
  mappers : List Mapper
deriving DecidableEq

/-- Embedding of `NewExecutor` (query_engine.go lines 105-109). -/
def NewExecutor (mappers : List Mapper) : Executor :=
  { mappers := mappers }

/-- Embedding of `Executor.Execute` (query_engine.go lines 112-117).  The body is exactly
`out := make(chan *influxql.Row, 0); return out`: no goroutine is started, so
over the whole run nothing is ever sent on the returned channel and it is
never closed. -/
def Executor.Execute (_ : Executor) : RowChannel :=
  { sent := [], closed := false }

/-- An observable interaction `Execute` performs: closing a mapper or sending
a row. -/
inductive ExecEvent where
  | closedMapper : Mapper → ExecEvent
  | sentRow : Row → ExecEvent
deriving DecidableEq

/-- The trace of mapper interactions and channel sends performed by the body
of `Executor.Execute` (query_engine.go lines 112-117): the body only
allocates the output channel and returns it, so the trace is empty — in
particular no `Close()` is ever invoked on any mapper. -/
def Executor.executeTrace (_ : Executor) : List ExecEvent :=
  []

/-- The local `ShardMapper` (query_engine.go lines 119-120): an empty
struct. -/
structure ShardMapper where
deriving DecidableEq

/-- Embedding of `ShardMapper.Open` (query_engine.go lines 122-124): returns nil. -/
def ShardMapper.Open (_ : ShardMapper) : Option String :=
  Option.none

/-- Embedding of `ShardMapper.Close` (query_engine.go lines 126-127): a no-op; the
receiver's (empty) state is unchanged. -/
def ShardMapper.Close (sm : ShardMapper) : ShardMapper :=
  sm

/-- Embedding of `ShardMapper.Begin` (query_engine.go lines 129-131): returns nil for any
statement and chunk size. -/
def ShardMapper.Begin (_ : ShardMapper) (_ : SelectStatement) (_ : Int) : Option String :=
  Option.none

/-- Embedding of `ShardMapper.NextChunk` (query_engine.go lines 133-135): always returns
the empty tag set, a nil result, interval 0 and nil error. -/
def ShardMapper.NextChunk (_ : ShardMapper) : String × Option Unit × Int × Option String :=
  ("", Option.none, 0, Option.none)

/-- Go map assignment `shards[sh.ID] = sh` on an insertion-ordered
association list: overwrite in place if the key is present, else append. -/
def upsert : List (Nat × ShardInfo) → Nat → ShardInfo → List (Nat × ShardInfo)
  | [], k, v => [(k, v)]
  | kv :: rest, k, v =>
      if kv.1 = k then (k, v) :: rest else kv :: upsert rest k v

/-- The inner loop `for _, sh := range g.Shards { shards[sh.ID] = sh }`
(query_engine.go lines 76-78). -/
def insertGroupShards (m : List (Nat × ShardInfo)) (l : List ShardInfo) : List (Nat × ShardInfo) :=
  l.foldl (fun acc sh => upsert acc sh.id sh) m

/-- The loop over shard groups (query_engine.go lines 75-79). -/
def insertShards (m : List (Nat × ShardInfo)) (groups : List ShardGroupInfo) : List (Nat × ShardInfo) :=
  groups.foldl (fun acc g => insertGroupShards acc g.shards) m

/-- The source loop of `Plan` (query_engine.go lines 53-80): rejects
non-measurement sources, reduces the condition in place (`stmt.Condition =
influxql.Reduce(...)`), applies the zero-value range defaults, looks up the
covering shard groups and accumulates their shards keyed by shard ID.
Returns the condition as left by the loop (the statement's mutated field)
together with the shard set or the first error. -/
def gatherShards (p : Planner) (now : Int) :
    List Source → Condition → List (Nat × ShardInfo) →
    Condition × Except String (List (Nat × ShardInfo))
  | [], c, m => (c, Except.ok m)
  | src :: rest, c, m =>
      match src with
      | Source.other _ => (c, Except.error "invalid source type")
      | Source.measurement db rp _ =>
          match p.metaStore.shardGroupsByTimeRange db rp
              (defaultRange now (TimeRange (Reduce now c))).1
              (defaultRange now (TimeRange (Reduce now c))).2 with
          | Except.error e => (Reduce now c, Except.error e)
          | Except.ok groups => gatherShards p now rest (Reduce now c) (insertShards m groups)

/-- The mapper-construction loop of `Plan` (query_engine.go lines 82-96):
for each shard owned by the local node append a fresh `ShardMapper`,
otherwise call `Cluster.NewMapper(sh.ID)` and abort on its error.  The first
component records the shard IDs passed to `Cluster.NewMapper`, in order. -/
def buildMappers (p : Planner) :
    List (Nat × ShardInfo) → List Mapper → List Nat →
    List Nat × Except String (List Mapper)
  | [], acc, calls => (calls, Except.ok acc)
  | kv :: rest, acc, calls =>
      if kv.2.ownedBy p.metaStore.nodeID then
        buildMappers p rest (acc ++ [Mapper.shardMapper]) calls
      else
        match p.cluster.newMapper kv.2.id with
        | Except.error e => (calls ++ [kv.2.id], Except.error e)
        | Except.ok mp => buildMappers p rest (acc ++ [mp]) (calls ++ [kv.2.id])

deriving instance DecidableEq for Except

/-- Everything observable about one `Plan` call: the returned
`(Executor, error)` pair, the statement's state when `Plan` returns (Go
mutates `stmt.Condition` in place through the pointer), and the shard IDs
passed to `Cluster.NewMapper`. -/
structure PlanOutcome where
  result : Except String Executor
  finalStmt : SelectStatement
  clusterCalls : List Nat
deriving DecidableEq

/-- The tail of `Plan` after the source loop succeeded with shard set
`shards` and final condition `c'` (query_engine.go lines 82-98): run the
mapper-construction loop and package the outcome. -/
def planFromShards (p : Planner) (stmt : SelectStatement) (c' : Condition)
    (shards : List (Nat × ShardInfo)) : PlanOutcome :=
  match buildMappers p shards [] [] with
  | (calls, Except.error e) =>
      { result := Except.error e
        finalStmt := { stmt with condition := c' }
        clusterCalls := calls }
  | (calls, Except.ok ms) =>
      { result := Except.ok (NewExecutor ms)
        finalStmt := { stmt with condition := c' }
        clusterCalls := calls }

/-- Embedding of `Planner.Plan` (query_engine.go lines 51-99).  `chunkSize` is accepted
and unused, as in the source; `now` models the instant `time.Now()` returns
during this call. -/
def Planner.Plan (p : Planner) (stmt : SelectStatement) (_chunkSize : Int) (now : Int) : PlanOutcome :=
  match gatherShards p now stmt.sources stmt.condition [] with
  | (c', Except.error e) =>
      { result := Except.error e
        finalStmt := { stmt with condition := c' }
        clusterCalls := [] }
  | (c', Except.ok shards) => planFromShards p stmt c' shards

/-- The deduplicated shard set `Plan` builds for a statement (empty when the
source loop aborts with an error). -/
def plannedShards (p : Planner) (now : Int) (stmt : SelectStatement) : List (Nat × ShardInfo) :=
  match gatherShards p now stmt.sources stmt.condition [] with
  | (_, Except.ok m) => m
  | (_, Except.error _) => []

/-- Whether an `Except` value is an error. -/
def isErr {α : Type} : Except String α → Bool
  | Except.error _ => true
  | Except.ok _ => false

/-- The keys of the shard association list. -/
def keysOf (m : List (Nat × ShardInfo)) : List Nat :=
  m.map Prod.fst

/-- The shard IDs of a list of shard groups. -/
def groupIDs (groups : List ShardGroupInfo) : List Nat :=
  groups.flatMap fun g => g.shards.map ShardInfo.id

/-- The distinct shard IDs the catalog reports for one source at the resolved
range of condition `c` (spec side: "covering shard groups" of a
measurement source; empty for a non-measurement source or a failed
lookup). -/
def sourceShardIDs (p : Planner) (now : Int) (c : Condition) : Source → Finset Nat
  | Source.measurement db rp _ =>
      match p.metaStore.shardGroupsByTimeRange db rp (resolvedRange now c).1 (resolvedRange now c).2 with
      | Except.ok groups => (groupIDs groups).toFinset
      | Except.error _ => ∅
  | Source.other _ => ∅

/-- The union of the covering shard IDs over a source list. -/
def coveringOf (p : Planner) (now : Int) (c : Condition) : List Source → Finset Nat
  | [] => ∅
  | s :: rest => sourceShardIDs p now c s ∪ coveringOf p now c rest

/-- Spec side: "the union of all covering shard groups across all sources" —
the distinct shard IDs a statement touches. -/
def coveringShardIDs (p : Planner) (now : Int) (stmt : SelectStatement) : Finset Nat :=
  coveringOf p now stmt.condition stmt.sources

/-- The IDs of the shards of the set not owned by the local node, in set
order. -/
def nonLocalIDs (p : Planner) (shards : List (Nat × ShardInfo)) : List Nat :=
  (shards.filter fun kv => !(kv.2.ownedBy p.metaStore.nodeID)).map fun kv => kv.2.id

/-! ### Concrete collaborators and statements used as test inputs -/

/-- A condition (`time > 100 AND time < 50`) whose extracted range is
inverted. -/
def invertedCond : Condition :=
  Condition.and (Condition.timeGT (TimeExpr.lit 100)) (Condition.timeLT (TimeExpr.lit 50))

/-- A planner whose catalog always succeeds with no shard groups. -/
def emptyCatalogPlanner : Planner :=
  { metaStore := { shardGroupsByTimeRange := fun _ _ _ _ => Except.ok [], nodeID := 0 }
    cluster := { newMapper := fun i => Except.ok (Mapper.clusterMapper i) } }

/-- A statement over one measurement whose condition contains `now()`. -/
def nowCondStmt : SelectStatement :=
  { sources := [Source.measurement "db" "rp" "cpu"]
    condition := Condition.timeGT TimeExpr.nowFn }

/-- A statement whose second source is not a measurement reference. -/
def badSourceStmt : SelectStatement :=
  { sources := [Source.measurement "db" "rp" "cpu", Source.other "subquery"]
    condition := Condition.nil }

/-- A planner with one local shard (ID 1) and one remote shard (ID 2), the
remote one repeated across two groups, and a healthy cluster. -/
def mixedCatalogPlanner : Planner :=
  { metaStore :=
      { shardGroupsByTimeRange := fun _ _ _ _ =>
          Except.ok [{ shards := [⟨1, 0⟩, ⟨2, 9⟩] }, { shards := [⟨1, 0⟩] }]
        nodeID := 0 }
    cluster := { newMapper := fun i => Except.ok (Mapper.clusterMapper i) } }

/-- Two overlapping measurement sources. -/
def twoSourceStmt : SelectStatement :=
  { sources := [Source.measurement "db" "rp" "cpu", Source.measurement "db" "rp" "mem"]
    condition := Condition.nil }

/-- A planner whose catalog reports two non-local shards and whose cluster
rejects every mapper construction. -/
def failingClusterPlanner : Planner :=
  { metaStore :=
      { shardGroupsByTimeRange := fun _ _ _ _ =>
          Except.ok [{ shards := [⟨1, 9⟩, ⟨2, 9⟩] }]
        nodeID := 0 }
    cluster := { newMapper := fun _ => Except.error "cluster down" } }

/-- A statement over a single measurement. -/
def oneSourceStmt : SelectStatement :=
  { sources := [Source.measurement "db" "rp" "cpu"]
    condition := Condition.nil }

/-! ### General lemmas about the embedded operations -/

/-- Reducing a condition twice with the same instant is the same as reducing
it once. -/
theorem reduce_idem (now : Int) (c : Condition) :
    Reduce now (Reduce now c) = Reduce now c := by
  induction c with
  | nil => rfl
  | timeGT e => cases e <;> rfl
  | timeLT e => cases e <;> rfl
  | and a b iha ihb => simp [Reduce, iha, ihb]

/-- The condition component of the source loop's result is the input
condition either untouched (no measurement source processed) or reduced
once. -/
theorem gatherShards_condition (p : Planner) (now : Int) :
    ∀ (srcs : List Source) (c : Condition) (m : List (Nat × ShardInfo)),
      (gatherShards p now srcs c m).1 = c ∨
      (gatherShards p now srcs c m).1 = Reduce now c := by
  intro srcs
  induction srcs with
  | nil => intro c m; exact Or.inl rfl
  | cons s rest ih =>
      intro c m
      cases s with
      | other t => exact Or.inl rfl
      | measurement db rp nm =>
          simp only [gatherShards]
          split
          · exact Or.inr rfl
          · rename_i groups hgroups
            rcases ih (Reduce now c) (insertShards m groups) with h | h
            · exact Or.inr h
            · exact Or.inr (by rw [h, reduce_idem])

/-- Upserting a key makes it a key of the map and keeps the others. -/
theorem keysOf_upsert (m : List (Nat × ShardInfo)) (k : Nat) (v : ShardInfo) :
    (keysOf (upsert m k v)).toFinset = insert k (keysOf m).toFinset := by
  induction m with
  | nil => simp [upsert, keysOf]
  | cons kv rest ih =>
      by_cases h : kv.1 = k
      · subst h
        simp [upsert, keysOf]
      · simp only [upsert, if_neg h, keysOf, List.map_cons, List.toFinset_cons] at *
        rw [ih, Finset.Insert.comm]

/-- Upserting preserves distinctness of the keys. -/
theorem nodup_keysOf_upsert (m : List (Nat × ShardInfo)) (k : Nat) (v : ShardInfo)
    (h : (keysOf m).Nodup) : (keysOf (upsert m k v)).Nodup := by
  induction m with
  | nil => simp [upsert, keysOf]
  | cons kv rest ih =>
      simp only [keysOf, List.map_cons, List.nodup_cons] at h
      obtain ⟨hnotin, hrest⟩ := h
      by_cases hk : kv.1 = k
      · subst hk
        have hstep : upsert (kv :: rest) kv.1 v = (kv.1, v) :: rest := by
          simp [upsert]
        rw [hstep]
        simp only [keysOf, List.map_cons, List.nodup_cons]
        exact ⟨hnotin, hrest⟩
      · simp only [upsert, if_neg hk, keysOf, List.map_cons, List.nodup_cons]
        refine ⟨?_, ih hrest⟩
        intro hmem
        have hf : kv.1 ∈ (keysOf (upsert rest k v)).toFinset := by
          simpa [keysOf] using hmem
        rw [keysOf_upsert] at hf
        simp only [Finset.mem_insert, List.mem_toFinset] at hf
        rcases hf with h1 | h2
        · exact hk h1
        · exact hnotin (by simpa [keysOf] using h2)

/-- Upserting `(k, v)` with `k = v.id` preserves the invariant that every
entry's key is its shard's ID. -/
theorem pairs_upsert (m : List (Nat × ShardInfo)) (k : Nat) (v : ShardInfo)
    (hkv : k = v.id) (h : ∀ kv ∈ m, kv.1 = kv.2.id) :
    ∀ kv ∈ upsert m k v, kv.1 = kv.2.id := by
  induction m with
  | nil =>
      intro kv hm
      simp only [upsert, List.mem_singleton] at hm
      subst hm
      simpa using hkv
  | cons kv0 rest ih =>
      intro kv hm
      simp only [upsert] at hm
      by_cases h0 : kv0.1 = k
      · rw [if_pos h0] at hm
        rcases List.mem_cons.mp hm with h1 | h1
        · subst h1; simpa using hkv
        · exact h kv (List.mem_cons_of_mem _ h1)
      · rw [if_neg h0] at hm
        rcases List.mem_cons.mp hm with h1 | h1
        · subst h1; exact h kv (List.mem_cons_self _ _)
        · exact ih (fun kv2 hm2 => h kv2 (List.mem_cons_of_mem _ hm2)) kv h1

/-- Inserting one group's shards adds exactly their IDs to the key set. -/
theorem keysOf_insertGroupShards (l : List ShardInfo) :
    ∀ m, (keysOf (insertGroupShards m l)).toFinset =
      (keysOf m).toFinset ∪ (l.map ShardInfo.id).toFinset := by
  induction l with
  | nil => intro m; simp [insertGroupShards]
  | cons sh rest ih =>
      intro m
      have hstep : insertGroupShards m (sh :: rest) =
          insertGroupShards (upsert m sh.id sh) rest := rfl
      rw [hstep, ih, keysOf_upsert]
      ext x
      simp only [Finset.mem_union, Finset.mem_insert, List.mem_toFinset, List.map_cons,
        List.mem_cons]
      tauto

/-- Inserting a group's shards preserves key distinctness. -/
theorem nodup_keysOf_insertGroupShards (l : List ShardInfo) :
    ∀ m, (keysOf m).Nodup → (keysOf (insertGroupShards m l)).Nodup := by
  induction l with
  | nil => intro m h; exact h
  | cons sh rest ih =>
      intro m h
      exact ih (upsert m sh.id sh) (nodup_keysOf_upsert m sh.id sh h)

/-- Inserting a group's shards preserves the key/ID invariant. -/
theorem pairs_insertGroupShards (l : List ShardInfo) :
    ∀ m, (∀ kv ∈ m, kv.1 = kv.2.id) →
      ∀ kv ∈ insertGroupShards m l, kv.1 = kv.2.id := by
  induction l with
  | nil => intro m h; exact h
  | cons sh rest ih =>
      intro m h
      exact ih (upsert m sh.id sh) (pairs_upsert m sh.id sh rfl h)

/-- Inserting a list of groups adds exactly their shards' IDs to the key
set. -/
theorem keysOf_insertShards (groups : List ShardGroupInfo) :
    ∀ m, (keysOf (insertShards m groups)).toFinset =
      (keysOf m).toFinset ∪ (groupIDs groups).toFinset := by
  induction groups with
  | nil => intro m; simp [insertShards, groupIDs]
  | cons g rest ih =>
      intro m
      have hstep : insertShards m (g :: rest) =
          insertShards (insertGroupShards m g.shards) rest := rfl
      rw [hstep, ih, keysOf_insertGroupShards]
      ext x
      simp only [Finset.mem_union, List.mem_toFinset, groupIDs, List.flatMap_cons,
        List.mem_append]
      tauto

/-- Inserting a list of groups preserves key distinctness. -/
theorem nodup_keysOf_insertShards (groups : List ShardGroupInfo) :
    ∀ m, (keysOf m).Nodup → (keysOf (insertShards m groups)).Nodup := by
  induction groups with
  | nil => intro m h; exact h
  | cons g rest ih =>
      intro m h
      exact ih (insertGroupShards m g.shards) (nodup_keysOf_insertGroupShards g.shards m h)

/-- Inserting a list of groups preserves the key/ID invariant. -/
theorem pairs_insertShards (groups : List ShardGroupInfo) :
    ∀ m, (∀ kv ∈ m, kv.1 = kv.2.id) →
      ∀ kv ∈ insertShards m groups, kv.1 = kv.2.id := by
  induction groups with
  | nil => intro m h; exact h
  | cons g rest ih =>
      intro m h
      exact ih (insertGroupShards m g.shards) (pairs_insertGroupShards g.shards m h)

/-- Resolving a range is insensitive to pre-reducing the condition. -/
theorem resolvedRange_reduce (now : Int) (c : Condition) :
    resolvedRange now (Reduce now c) = resolvedRange now c := by
  simp [resolvedRange, reduce_idem]

/-- Covering IDs of one source are insensitive to pre-reducing the
condition. -/
theorem sourceShardIDs_reduce (p : Planner) (now : Int) (c : Condition) (s : Source) :
    sourceShardIDs p now (Reduce now c) s = sourceShardIDs p now c s := by
  cases s with
  | other t => rfl
  | measurement db rp nm => simp only [sourceShardIDs, resolvedRange_reduce]

/-- Covering IDs of a source list are insensitive to pre-reducing the
condition. -/
theorem coveringOf_reduce (p : Planner) (now : Int) (c : Condition) (srcs : List Source) :
    coveringOf p now (Reduce now c) srcs = coveringOf p now c srcs := by
  induction srcs with
  | nil => rfl
  | cons s rest ih => simp [coveringOf, sourceShardIDs_reduce, ih]

/-- When the source loop succeeds, the final key set is the initial one
together with the covering shard IDs of all sources, key distinctness is
preserved, and every entry's key is its shard's ID. -/
theorem gatherShards_ok (p : Planner) (now : Int) :
    ∀ (srcs : List Source) (c : Condition) (m : List (Nat × ShardInfo)) (c' : Condition)
      (m' : List (Nat × ShardInfo)),
      gatherShards p now srcs c m = (c', Except.ok m') →
      (keysOf m').toFinset = (keysOf m).toFinset ∪ coveringOf p now c srcs ∧
      ((keysOf m).Nodup → (keysOf m').Nodup) ∧
      ((∀ kv ∈ m, kv.1 = kv.2.id) → ∀ kv ∈ m', kv.1 = kv.2.id) := by
  intro srcs
  induction srcs with
  | nil =>
      intro c m c' m' h
      simp only [gatherShards, Prod.mk.injEq] at h
      obtain ⟨_, h2⟩ := h
      cases h2
      simp [coveringOf]
  | cons s rest ih =>
      intro c m c' m' h
      cases s with
      | other t =>
          simp only [gatherShards, Prod.mk.injEq] at h
          exact absurd h.2 (by simp)
      | measurement db rp nm =>
          simp only [gatherShards] at h
          revert h
          split
          · intro h
            simp only [Prod.mk.injEq] at h
            exact absurd h.2 (by simp)
          · rename_i groups hgroups
            intro h
            obtain ⟨h1, h2, h3⟩ := ih (Reduce now c) (insertShards m groups) c' m' h
            refine ⟨?_, ?_, ?_⟩
            · rw [h1, coveringOf_reduce, keysOf_insertShards]
              have hsrc : sourceShardIDs p now c (Source.measurement db rp nm) =
                  (groupIDs groups).toFinset := by
                simp only [sourceShardIDs, resolvedRange]
                rw [hgroups]
              rw [coveringOf, hsrc]
              ext x
              simp only [Finset.mem_union]
              tauto
            · intro hnd
              exact h2 (nodup_keysOf_insertShards groups m hnd)
            · intro hp
              exact h3 (pairs_insertShards groups m hp)

/-- In a map with distinct keys, an entry is determined by its key. -/
theorem entry_unique (m : List (Nat × ShardInfo)) (hnd : (keysOf m).Nodup) :
    ∀ kv ∈ m, ∀ kv2 ∈ m, kv.1 = kv2.1 → kv = kv2 := by
  induction m with
  | nil => intro kv h; simp at h
  | cons kv0 rest ih =>
      simp only [keysOf, List.map_cons, List.nodup_cons] at hnd
      obtain ⟨hnotin, hrest⟩ := hnd
      intro kv hkv kv2 hkv2 heq
      rcases List.mem_cons.mp hkv with h1 | h1 <;> rcases List.mem_cons.mp hkv2 with h2 | h2
      · rw [h1, h2]
      · subst h1
        exact absurd (heq ▸ List.mem_map_of_mem Prod.fst h2) hnotin
      · subst h2
        exact absurd (heq ▸ List.mem_map_of_mem Prod.fst h1) hnotin
      · exact ih hrest kv h1 kv2 h2 heq

/-- The non-local IDs of a set headed by a locally owned shard. -/
theorem nonLocalIDs_cons_local (p : Planner) (kv : Nat × ShardInfo)
    (rest : List (Nat × ShardInfo)) (h : kv.2.ownedBy p.metaStore.nodeID = true) :
    nonLocalIDs p (kv :: rest) = nonLocalIDs p rest := by
  simp [nonLocalIDs, List.filter_cons, h]

/-- The non-local IDs of a set headed by a shard owned elsewhere. -/
theorem nonLocalIDs_cons_nonlocal (p : Planner) (kv : Nat × ShardInfo)
    (rest : List (Nat × ShardInfo)) (h : kv.2.ownedBy p.metaStore.nodeID = false) :
    nonLocalIDs p (kv :: rest) = kv.2.id :: nonLocalIDs p rest := by
  simp [nonLocalIDs, List.filter_cons, h]

/-- Characterization of a successful mapper-construction loop: one mapper per
shard of the set, the cluster asked exactly for the non-local IDs in order,
and no cluster call failed. -/
theorem buildMappers_ok (p : Planner) :
    ∀ (shards : List (Nat × ShardInfo)) (acc : List Mapper) (calls calls' : List Nat)
      (ms : List Mapper),
      buildMappers p shards acc calls = (calls', Except.ok ms) →
      ms.length = acc.length + shards.length ∧
      calls' = calls ++ nonLocalIDs p shards ∧
      (∀ kv ∈ shards, kv.2.ownedBy p.metaStore.nodeID = false →
        isErr (p.cluster.newMapper kv.2.id) = false) := by
  intro shards
  induction shards with
  | nil =>
      intro acc calls calls' ms h
      simp only [buildMappers, Prod.mk.injEq, Except.ok.injEq] at h
      obtain ⟨h1, h2⟩ := h
      subst h1; subst h2
      simp [nonLocalIDs]
  | cons kv rest ih =>
      intro acc calls calls' ms h
      simp only [buildMappers] at h
      by_cases ho : kv.2.ownedBy p.metaStore.nodeID
      · rw [if_pos ho] at h
        obtain ⟨h1, h2, h3⟩ := ih _ _ _ _ h
        refine ⟨?_, ?_, ?_⟩
        · simp only [List.length_append, List.length_cons, List.length_nil] at h1 ⊢
          omega
        · rw [h2, nonLocalIDs_cons_local p kv rest ho]
        · intro kv2 hm2 hnl
          rcases List.mem_cons.mp hm2 with he | he
          · subst he; rw [ho] at hnl; cases hnl
          · exact h3 kv2 he hnl
      · rw [if_neg ho] at h
        rcases hc : p.cluster.newMapper kv.2.id with e | mp
        · rw [hc] at h
          simp only [Prod.mk.injEq] at h
          exact absurd h.2 (by simp)
        · rw [hc] at h
          obtain ⟨h1, h2, h3⟩ := ih _ _ _ _ h
          have ho' : kv.2.ownedBy p.metaStore.nodeID = false := by
            cases hob : kv.2.ownedBy p.metaStore.nodeID
            · rfl
            · exact absurd hob ho
          refine ⟨?_, ?_, ?_⟩
          · simp only [List.length_append, List.length_cons, List.length_nil] at h1 ⊢
            omega
          · rw [h2, nonLocalIDs_cons_nonlocal p kv rest ho']
            simp
          · intro kv2 hm2 hnl
            rcases List.mem_cons.mp hm2 with he | he
            · subst he; rw [hc]; rfl
            · exact h3 kv2 he hnl

/-- If some shard of the set is non-local and its cluster construction
fails, the mapper-construction loop fails. -/
theorem buildMappers_err (p : Planner) :
    ∀ (shards : List (Nat × ShardInfo)) (acc : List Mapper) (calls : List Nat),
      (∃ kv ∈ shards, kv.2.ownedBy p.metaStore.nodeID = false ∧
        isErr (p.cluster.newMapper kv.2.id) = true) →
      isErr (buildMappers p shards acc calls).2 = true := by
  intro shards
  induction shards with
  | nil =>
      intro acc calls h
      obtain ⟨kv, hm, _⟩ := h
      simp at hm
  | cons kv0 rest ih =>
      intro acc calls h
      obtain ⟨kv, hm, hnl, herr⟩ := h
      simp only [buildMappers]
      by_cases ho : kv0.2.ownedBy p.metaStore.nodeID
      · rw [if_pos ho]
        rcases List.mem_cons.mp hm with he | he
        · subst he; rw [ho] at hnl; cases hnl
        · exact ih _ _ ⟨kv, he, hnl, herr⟩
      · rw [if_neg ho]
        rcases hc : p.cluster.newMapper kv0.2.id with e | mp
        · rfl
        · rcases List.mem_cons.mp hm with he | he
          · subst he; rw [hc] at herr; cases herr
          · exact ih _ _ ⟨kv, he, hnl, herr⟩

/-- Every ID the mapper-construction loop passed to the cluster, on any exit
path, is an initial call or a non-local shard ID of the set. -/
theorem buildMappers_calls_mem (p : Planner) :
    ∀ (shards : List (Nat × ShardInfo)) (acc : List Mapper) (calls : List Nat) (x : Nat),
      x ∈ (buildMappers p shards acc calls).1 →
      x ∈ calls ∨ x ∈ nonLocalIDs p shards := by
  intro shards
  induction shards with
  | nil =>
      intro acc calls x h
      exact Or.inl h
  | cons kv rest ih =>
      intro acc calls x h
      simp only [buildMappers] at h
      by_cases ho : kv.2.ownedBy p.metaStore.nodeID
      · rw [if_pos ho] at h
        rcases ih _ _ _ h with h1 | h1
        · exact Or.inl h1
        · exact Or.inr (by rw [nonLocalIDs_cons_local p kv rest ho]; exact h1)
      · have ho' : kv.2.ownedBy p.metaStore.nodeID = false := by
          cases hob : kv.2.ownedBy p.metaStore.nodeID
          · rfl
          · exact absurd hob ho
        rw [if_neg ho] at h
        rcases hc : p.cluster.newMapper kv.2.id with e | mp
        · rw [hc] at h
          simp only [List.mem_append, List.mem_singleton] at h
          rcases h with h1 | h1
          · exact Or.inl h1
          · exact Or.inr (by rw [nonLocalIDs_cons_nonlocal p kv rest ho', h1]; simp)
        · rw [hc] at h
          rcases ih _ _ _ h with h1 | h1
          · simp only [List.mem_append, List.mem_singleton] at h1
            rcases h1 with h2 | h2
            · exact Or.inl h2
            · exact Or.inr (by rw [nonLocalIDs_cons_nonlocal p kv rest ho', h2]; simp)
          · exact Or.inr (by rw [nonLocalIDs_cons_nonlocal p kv rest ho']; simp [h1])

/-- If some source is not a measurement reference, the source loop fails. -/
theorem gatherShards_err_of_bad_source (p : Planner) (now : Int) :
    ∀ (srcs : List Source) (c : Condition) (m : List (Nat × ShardInfo)),
      (∃ s ∈ srcs, s.isMeasurement = false) →
      isErr (gatherShards p now srcs c m).2 = true := by
  intro srcs
  induction srcs with
  | nil =>
      intro c m h
      obtain ⟨s, hm, _⟩ := h
      simp at hm
  | cons s0 rest ih =>
      intro c m h
      obtain ⟨s, hm, hs⟩ := h
      cases s0 with
      | other t => rfl
      | measurement db rp nm =>
          simp only [gatherShards]
          split
          · rfl
          · rcases List.mem_cons.mp hm with he | he
            · subst he
              simp [Source.isMeasurement] at hs
            · exact ih _ _ ⟨s, he, hs⟩

/-- If the catalog lookup fails for some measurement source at the resolved
range, the source loop fails. -/
theorem gatherShards_err_of_meta (p : Planner) (now : Int) :
    ∀ (srcs : List Source) (c : Condition) (m : List (Nat × ShardInfo)),
      (∃ db rp nm, Source.measurement db rp nm ∈ srcs ∧
        isErr (p.metaStore.shardGroupsByTimeRange db rp (resolvedRange now c).1
          (resolvedRange now c).2) = true) →
      isErr (gatherShards p now srcs c m).2 = true := by
  intro srcs
  induction srcs with
  | nil =>
      intro c m h
      obtain ⟨db, rp, nm, hm, _⟩ := h
      simp at hm
  | cons s0 rest ih =>
      intro c m h
      obtain ⟨db, rp, nm, hm, herr⟩ := h
      cases s0 with
      | other t => rfl
      | measurement db0 rp0 nm0 =>
          simp only [gatherShards]
          split
          · rfl
          · rename_i groups hgroups
            rcases List.mem_cons.mp hm with he | he
            · injection he with h1 h2 h3
              subst h1; subst h2
              rw [show resolvedRange now c =
                  defaultRange now (TimeRange (Reduce now c)) from rfl] at herr
              rw [hgroups] at herr
              cases herr
            · refine ih (Reduce now c) _ ⟨db, rp, nm, he, ?_⟩
              rw [resolvedRange_reduce]
              exact herr

/-- A `Plan` call whose source loop fails returns that error, the mutated
statement, and no cluster calls. -/
theorem Plan_gather_error (p : Planner) (stmt : SelectStatement) (chunkSize now : Int)
    (c' : Condition) (e : String)
    (hgs : gatherShards p now stmt.sources stmt.condition [] = (c', Except.error e)) :
    p.Plan stmt chunkSize now =
      { result := Except.error e
        finalStmt := { stmt with condition := c' }
        clusterCalls := [] } := by
  unfold Planner.Plan
  rw [hgs]

/-- A `Plan` call whose source loop succeeds continues with the mapper
loop. -/
theorem Plan_gather_ok (p : Planner) (stmt : SelectStatement) (chunkSize now : Int)
    (c' : Condition) (shards : List (Nat × ShardInfo))
    (hgs : gatherShards p now stmt.sources stmt.condition [] = (c', Except.ok shards)) :
    p.Plan stmt chunkSize now = planFromShards p stmt c' shards := by
  unfold Planner.Plan
  rw [hgs]

/-- The mapper loop never touches the statement fields beyond the already
reduced condition. -/
theorem planFromShards_finalStmt (p : Planner) (stmt : SelectStatement) (c' : Condition)
    (shards : List (Nat × ShardInfo)) :
    (planFromShards p stmt c' shards).finalStmt = { stmt with condition := c' } := by
  unfold planFromShards
  rcases hb : buildMappers p shards [] [] with ⟨calls, br⟩
  cases br <;> rfl

/-- The cluster calls of the tail of `Plan` are those of the mapper loop. -/
theorem planFromShards_clusterCalls (p : Planner) (stmt : SelectStatement) (c' : Condition)
    (shards : List (Nat × ShardInfo)) :
    (planFromShards p stmt c' shards).clusterCalls = (buildMappers p shards [] []).1 := by
  unfold planFromShards
  rcases hb : buildMappers p shards [] [] with ⟨calls, br⟩
  cases br <;> rfl

/-- The tail of `Plan` errs exactly when the mapper loop errs. -/
theorem planFromShards_isErr (p : Planner) (stmt : SelectStatement) (c' : Condition)
    (shards : List (Nat × ShardInfo)) :
    isErr (planFromShards p stmt c' shards).result = isErr (buildMappers p shards [] []).2 := by
  unfold planFromShards
  rcases hb : buildMappers p shards [] [] with ⟨calls, br⟩
  cases br <;> rfl

/-- A successful tail of `Plan` comes from a successful mapper loop and wraps
exactly its mappers. -/
theorem planFromShards_result_ok (p : Planner) (stmt : SelectStatement) (c' : Condition)
    (shards : List (Nat × ShardInfo)) (exec : Executor)
    (hok : (planFromShards p stmt c' shards).result = Except.ok exec) :
    ∃ calls ms, buildMappers p shards [] [] = (calls, Except.ok ms) ∧ NewExecutor ms = exec := by
  unfold planFromShards at hok
  rcases hb : buildMappers p shards [] [] with ⟨calls, br⟩
  rw [hb] at hok
  cases br with
  | error e => simp at hok
  | ok ms => exact ⟨calls, ms, rfl, by simpa using hok⟩

/-- The planned shard set of a failed source loop is empty. -/
theorem plannedShards_gather_error (p : Planner) (stmt : SelectStatement) (now : Int)
    (c' : Condition) (e : String)
    (hgs : gatherShards p now stmt.sources stmt.condition [] = (c', Except.error e)) :
    plannedShards p now stmt = [] := by
  unfold plannedShards
  rw [hgs]

/-- The planned shard set of a successful source loop is its shard set. -/
theorem plannedShards_gather_ok (p : Planner) (stmt : SelectStatement) (now : Int)
    (c' : Condition) (shards : List (Nat × ShardInfo))
    (hgs : gatherShards p now stmt.sources stmt.condition [] = (c', Except.ok shards)) :
    plannedShards p now stmt = shards := by
  unfold plannedShards
  rw [hgs]

/-! ### Claim theorems: planning -/

/-- Claim C4: a statement containing any non-measurement source makes `Plan`
return an error and no Executor, so execution never starts. -/
theorem plan_rejects_non_measurement (p : Planner) (stmt : SelectStatement)
    (chunkSize now : Int)
    (h : ∃ s ∈ stmt.sources, s.isMeasurement = false) :
    isErr (p.Plan stmt chunkSize now).result = true := by
  have hg := gatherShards_err_of_bad_source p now stmt.sources stmt.condition [] h
  rcases hgs : gatherShards p now stmt.sources stmt.condition [] with ⟨c', r⟩
  rw [hgs] at hg
  cases r with
  | error e =>
      rw [Plan_gather_error p stmt chunkSize now c' e hgs]
      rfl
  | ok m' => simp [isErr] at hg

/-- Concrete instantiation of `plan_rejects_non_measurement`. -/
theorem plan_rejects_non_measurement_witness :
    isErr (emptyCatalogPlanner.Plan badSourceStmt 0 7).result = true :=
  plan_rejects_non_measurement emptyCatalogPlanner badSourceStmt 0 7 (by decide)

/-- Claim C2: when `Plan` returns an Executor, that executor holds exactly
one mapper per distinct shard ID in the union of the covering shard groups
across all sources. -/
theorem plan_one_mapper_per_distinct_shard (p : Planner) (stmt : SelectStatement)
    (chunkSize now : Int) (exec : Executor)
    (hok : (p.Plan stmt chunkSize now).result = Except.ok exec) :
    exec.mappers.length = (coveringShardIDs p now stmt).card := by
  rcases hgs : gatherShards p now stmt.sources stmt.condition [] with ⟨c', r⟩
  cases r with
  | error e =>
      rw [Plan_gather_error p stmt chunkSize now c' e hgs] at hok
      simp at hok
  | ok shards =>
      rw [Plan_gather_ok p stmt chunkSize now c' shards hgs] at hok
      obtain ⟨calls, ms, hb, hexec⟩ := planFromShards_result_ok p stmt c' shards exec hok
      subst hexec
      obtain ⟨hkeys, hnodup, _⟩ :=
        gatherShards_ok p now stmt.sources stmt.condition [] c' shards hgs
      obtain ⟨hlen, _, _⟩ := buildMappers_ok p shards [] [] calls ms hb
      have hnd : (keysOf shards).Nodup := hnodup (by simp [keysOf])
      show ms.length = _
      rw [hlen]
      simp only [List.length_nil, Nat.zero_add]
      have hkl : shards.length = (keysOf shards).length := by simp [keysOf]
      rw [hkl, ← List.toFinset_card_of_nodup hnd, hkeys]
      simp [coveringShardIDs, keysOf]

/-- Concrete instantiation of `plan_one_mapper_per_distinct_shard`: two
overlapping sources touching shard IDs {1, 2} yield exactly two mappers. -/
theorem plan_one_mapper_per_distinct_shard_witness :
    (Executor.mk [Mapper.shardMapper, Mapper.clusterMapper 2]).mappers.length =
      (coveringShardIDs mixedCatalogPlanner 100 twoSourceStmt).card :=
  plan_one_mapper_per_distinct_shard mixedCatalogPlanner twoSourceStmt 0 100
    (Executor.mk [Mapper.shardMapper, Mapper.clusterMapper 2]) (by decide)

/-- Claim C7: an Executor is returned only when every mapper was constructed
(one per planned shard, every needed cluster call succeeded); a failing
cluster construction for any planned non-local shard, or a failing catalog
lookup for any measurement source, makes `Plan` return an error and no
Executor. -/
theorem plan_complete_or_error (p : Planner) (stmt : SelectStatement)
    (chunkSize now : Int) :
    (∀ exec, (p.Plan stmt chunkSize now).result = Except.ok exec →
        exec.mappers.length = (plannedShards p now stmt).length ∧
        (∀ kv ∈ plannedShards p now stmt, kv.2.ownedBy p.metaStore.nodeID = false →
          isErr (p.cluster.newMapper kv.2.id) = false)) ∧
    ((∃ kv ∈ plannedShards p now stmt, kv.2.ownedBy p.metaStore.nodeID = false ∧
        isErr (p.cluster.newMapper kv.2.id) = true) →
      isErr (p.Plan stmt chunkSize now).result = true) ∧
    ((∃ db rp nm, Source.measurement db rp nm ∈ stmt.sources ∧
        isErr (p.metaStore.shardGroupsByTimeRange db rp
          (resolvedRange now stmt.condition).1
          (resolvedRange now stmt.condition).2) = true) →
      isErr (p.Plan stmt chunkSize now).result = true) := by
  rcases hgs : gatherShards p now stmt.sources stmt.condition [] with ⟨c', r⟩
  cases r with
  | error e =>
      have hplan := Plan_gather_error p stmt chunkSize now c' e hgs
      have hps := plannedShards_gather_error p stmt now c' e hgs
      refine ⟨?_, ?_, ?_⟩
      · intro exec hok
        rw [hplan] at hok
        simp at hok
      · intro h
        rw [hps] at h
        obtain ⟨kv, hm, _⟩ := h
        simp at hm
      · intro h
        rw [hplan]
        rfl
  | ok shards =>
      have hplan := Plan_gather_ok p stmt chunkSize now c' shards hgs
      have hps := plannedShards_gather_ok p stmt now c' shards hgs
      refine ⟨?_, ?_, ?_⟩
      · intro exec hok
        rw [hplan] at hok
        obtain ⟨calls, ms, hb, hexec⟩ := planFromShards_result_ok p stmt c' shards exec hok
        subst hexec
        obtain ⟨hlen, _, hcl⟩ := buildMappers_ok p shards [] [] calls ms hb
        rw [hps]
        exact ⟨by simpa using hlen, hcl⟩
      · intro h
        rw [hps] at h
        have hberr := buildMappers_err p shards [] [] h
        rw [hplan, planFromShards_isErr]
        exact hberr
      · intro h
        have hg := gatherShards_err_of_meta p now stmt.sources stmt.condition [] h
        rw [hgs] at hg
        simp [isErr] at hg

/-- Concrete instantiation of `plan_complete_or_error`: with an unreachable
cluster, `Plan` returns an error and no Executor. -/
theorem plan_complete_or_error_witness :
    isErr (failingClusterPlanner.Plan oneSourceStmt 0 0).result = true :=
  (plan_complete_or_error failingClusterPlanner oneSourceStmt 0 0).2.1 (by decide)

/-- Claim C6, counterexample: with the cluster down, shard 2 is a planned
non-local shard of the run, yet `Plan` exits after the failing call for
shard 1, so shard 2 causes zero `Cluster.NewMapper` calls — not exactly
one. -/
theorem plan_cluster_calls_cex :
    ((2, (⟨2, 9⟩ : ShardInfo)) ∈ plannedShards failingClusterPlanner 0 oneSourceStmt) ∧
    (⟨2, 9⟩ : ShardInfo).ownedBy failingClusterPlanner.metaStore.nodeID = false ∧
    (failingClusterPlanner.Plan oneSourceStmt 0 0).clusterCalls.count 2 = 0 := by
  decide

/-- Claim C6, amended: during `Plan` a locally owned shard never causes a
`Cluster.NewMapper` call, and when `Plan` returns an Executor every planned
non-local shard causes exactly one call carrying its ID (on an error exit,
planned non-local shards not yet reached cause none). -/
theorem plan_cluster_calls_amended (p : Planner) (stmt : SelectStatement)
    (chunkSize now : Int) :
    (∀ kv ∈ plannedShards p now stmt, kv.2.ownedBy p.metaStore.nodeID = true →
      kv.2.id ∉ (p.Plan stmt chunkSize now).clusterCalls) ∧
    (∀ exec, (p.Plan stmt chunkSize now).result = Except.ok exec →
      ∀ kv ∈ plannedShards p now stmt, kv.2.ownedBy p.metaStore.nodeID = false →
        (p.Plan stmt chunkSize now).clusterCalls.count kv.2.id = 1) := by
  rcases hgs : gatherShards p now stmt.sources stmt.condition [] with ⟨c', r⟩
  cases r with
  | error e =>
      have hps := plannedShards_gather_error p stmt now c' e hgs
      rw [hps]
      constructor
      · intro kv hm
        simp at hm
      · intro exec hok kv hm
        simp at hm
  | ok shards =>
      have hplan := Plan_gather_ok p stmt chunkSize now c' shards hgs
      have hps := plannedShards_gather_ok p stmt now c' shards hgs
      rw [hps, hplan]
      obtain ⟨_, hnodup, hpairs⟩ :=
        gatherShards_ok p now stmt.sources stmt.condition [] c' shards hgs
      have hnd : (keysOf shards).Nodup := hnodup (by simp [keysOf])
      have hpr : ∀ kv ∈ shards, kv.1 = kv.2.id := hpairs (by simp)
      have hnotin : ∀ kv ∈ shards, kv.2.ownedBy p.metaStore.nodeID = true →
          kv.2.id ∉ nonLocalIDs p shards := by
        intro kv hm hloc hmem
        simp only [nonLocalIDs, List.mem_map, List.mem_filter] at hmem
        obtain ⟨kv', ⟨hm', hnl'⟩, hid⟩ := hmem
        have hnl'' : kv'.2.ownedBy p.metaStore.nodeID = false := by
          cases hob : kv'.2.ownedBy p.metaStore.nodeID
          · rfl
          · rw [hob] at hnl'; cases hnl'
        have h1 : kv'.1 = kv.1 := by
          rw [hpr kv' hm', hpr kv hm, hid]
        have h2 : kv' = kv := entry_unique shards hnd kv' hm' kv hm h1
        rw [h2, hloc] at hnl''
        cases hnl''
      have hndnl : (nonLocalIDs p shards).Nodup := by
        have hsub : (shards.filter fun kv => !(kv.2.ownedBy p.metaStore.nodeID)).Sublist
            shards := List.filter_sublist shards
        have heq : nonLocalIDs p shards =
            keysOf (shards.filter fun kv => !(kv.2.ownedBy p.metaStore.nodeID)) := by
          apply List.map_congr_left
          intro kv hkv
          exact (hpr kv (hsub.subset hkv)).symm
        rw [heq]
        exact List.Nodup.sublist (hsub.map Prod.fst) hnd
      have hcount : ∀ kv ∈ shards, kv.2.ownedBy p.metaStore.nodeID = false →
          (nonLocalIDs p shards).count kv.2.id = 1 := by
        intro kv hm hnl
        apply List.count_eq_one_of_mem hndnl
        simp only [nonLocalIDs, List.mem_map, List.mem_filter]
        exact ⟨kv, ⟨hm, by simp [hnl]⟩, rfl⟩
      constructor
      · intro kv hm hloc hmem
        rw [planFromShards_clusterCalls] at hmem
        rcases buildMappers_calls_mem p shards [] [] _ hmem with h1 | h1
        · simp at h1
        · exact hnotin kv hm hloc h1
      · intro exec hok kv hm hnl
        obtain ⟨calls, ms, hb, _⟩ := planFromShards_result_ok p stmt c' shards exec hok
        rw [planFromShards_clusterCalls, hb]
        obtain ⟨_, hcalls, _⟩ := buildMappers_ok p shards [] [] calls ms hb
        simp only [List.nil_append] at hcalls
        show calls.count kv.2.id = 1
        rw [hcalls]
        exact hcount kv hm hnl

/-- Concrete instantiation of `plan_cluster_calls_amended`: in a successful
plan over one local shard (ID 1) and one remote shard (ID 2), the cluster
is never asked for shard 1 and asked exactly once for shard 2. -/
theorem plan_cluster_calls_amended_witness :
    ((1 : Nat) ∉ (mixedCatalogPlanner.Plan twoSourceStmt 0 100).clusterCalls) ∧
    ((mixedCatalogPlanner.Plan twoSourceStmt 0 100).clusterCalls.count 2 = 1) := by
  constructor
  · exact (plan_cluster_calls_amended mixedCatalogPlanner twoSourceStmt 0 100).1
      (1, ⟨1, 0⟩) (by decide) (by decide)
  · exact (plan_cluster_calls_amended mixedCatalogPlanner twoSourceStmt 0 100).2
      (Executor.mk [Mapper.shardMapper, Mapper.clusterMapper 2]) (by decide)
      (2, ⟨2, 9⟩) (by decide) (by decide)

/-! ### Claim theorems: the Executor stub -/

/-- Claim C1: the source's `Execute` returns an unbuffered channel that no
goroutine ever sends on or closes, so every receive the consumer attempts
blocks forever — the output sequence never yields a row and never
terminates cleanly, contradicting the claimed clean empty termination. -/
theorem execute_consumer_blocks_forever (e : Executor) (n : Nat) :
    recv (Executor.Execute e) n = RecvOutcome.blocked := by
  simp [recv, Executor.Execute]

/-- Claim C3: the body of `Execute` performs no mapper interaction at all, so
every mapper of the executor receives zero `Close()` calls on every exit
path — not the exactly-one call the claim requires. -/
theorem execute_closes_no_mapper (e : Executor) (m : Mapper) :
    (Executor.executeTrace e).count (ExecEvent.closedMapper m) = 0 :=
  rfl

/-- Claim C9: the rows sent on the channel returned by `Execute` have
non-decreasing interval indices across the whole run (vacuously: the stub
body never sends a row). -/
theorem execute_rows_interval_monotone (e : Executor) :
    List.Chain' (fun a b => a.interval ≤ b.interval) (Executor.Execute e).sent := by
  simp [Executor.Execute]

/-! ### Claim theorems: the local ShardMapper -/

/-- Claim C10: the local `ShardMapper` realization is total and inert: `Open`
returns nil, `Begin` returns nil for any statement and chunk size, `Close`
is a state-preserving no-op, and `NextChunk` always returns the empty tag
set, nil result, interval 0 and nil error. -/
theorem shardMapper_total (sm : ShardMapper) (stmt : SelectStatement) (chunkSize : Int) :
    ShardMapper.Open sm = Option.none ∧
    ShardMapper.Begin sm stmt chunkSize = Option.none ∧
    ShardMapper.Close sm = sm ∧
    ShardMapper.NextChunk sm = ("", Option.none, 0, Option.none) :=
  ⟨rfl, rfl, rfl, rfl⟩

/-! ### Claim theorems: the resolved time range (C5) -/

/-- Claim C5, counterexample: for the statement condition
`time > 100 AND time < 50` the range `Plan` resolves (and hands to the
shard catalog) is `(100, 50)`, violating min ≤ max. -/
theorem resolved_range_inverted_cex :
    ¬ ((resolvedRange 1000 invertedCond).1 ≤ (resolvedRange 1000 invertedCond).2) := by
  decide

/-- Claim C5, amended: `Plan` replaces a zero-valued max by the planning
instant and a zero-valued min by the epoch, and the resolved range satisfies
min ≤ max whenever the extracted range is consistent (both endpoints zero;
min zero and max at or after the epoch; max zero and min at or before the
planning instant; or both nonzero and ordered).  `Plan` itself enforces no
ordering. -/
theorem resolved_range_defaults_and_order (now : Int) (c : Condition)
    (hnow : epoch ≤ now)
    (hcons :
      ((TimeRange (Reduce now c)).1 = zeroTime ∧ (TimeRange (Reduce now c)).2 = zeroTime) ∨
      ((TimeRange (Reduce now c)).1 = zeroTime ∧ (TimeRange (Reduce now c)).2 ≠ zeroTime ∧
        epoch ≤ (TimeRange (Reduce now c)).2) ∨
      ((TimeRange (Reduce now c)).1 ≠ zeroTime ∧ (TimeRange (Reduce now c)).2 = zeroTime ∧
        (TimeRange (Reduce now c)).1 ≤ now) ∨
      ((TimeRange (Reduce now c)).1 ≠ zeroTime ∧ (TimeRange (Reduce now c)).2 ≠ zeroTime ∧
        (TimeRange (Reduce now c)).1 ≤ (TimeRange (Reduce now c)).2)) :
    (resolvedRange now c).1 ≤ (resolvedRange now c).2 ∧
    ((TimeRange (Reduce now c)).2 = zeroTime → (resolvedRange now c).2 = now) ∧
    ((TimeRange (Reduce now c)).2 ≠ zeroTime →
      (resolvedRange now c).2 = (TimeRange (Reduce now c)).2) ∧
    ((TimeRange (Reduce now c)).1 = zeroTime → (resolvedRange now c).1 = epoch) ∧
    ((TimeRange (Reduce now c)).1 ≠ zeroTime →
      (resolvedRange now c).1 = (TimeRange (Reduce now c)).1) := by
  unfold resolvedRange defaultRange
  rcases hcons with ⟨h1, h2⟩ | ⟨h1, h2, h3⟩ | ⟨h1, h2, h3⟩ | ⟨h1, h2, h3⟩ <;>
    simp [h1, h2] <;> omega

/-- Concrete instantiation of `resolved_range_defaults_and_order`. -/
theorem resolved_range_defaults_and_order_witness :
    (resolvedRange 100 (Condition.and (Condition.timeGT (TimeExpr.lit 5))
        (Condition.timeLT (TimeExpr.lit 50)))).1 ≤
      (resolvedRange 100 (Condition.and (Condition.timeGT (TimeExpr.lit 5))
        (Condition.timeLT (TimeExpr.lit 50)))).2 :=
  (resolved_range_defaults_and_order 100
    (Condition.and (Condition.timeGT (TimeExpr.lit 5)) (Condition.timeLT (TimeExpr.lit 50)))
    (by decide) (by decide)).1

/-! ### Claim theorems: statement mutation (C8) -/

/-- Claim C8, counterexample: `Plan` writes the reduced condition back into
the statement (`stmt.Condition = influxql.Reduce(...)`), so a statement
whose condition mentions `now()` is changed by `Plan`. -/
theorem plan_mutates_statement_cex :
    (emptyCatalogPlanner.Plan nowCondStmt 0 42).finalStmt ≠ nowCondStmt := by
  decide

/-- Claim C8, amended: `Plan` leaves every statement field except the time
condition unchanged, and leaves the condition either untouched or replaced
by its reduced form (with `now()` substituted by the planning instant). -/
theorem plan_statement_fields (p : Planner) (stmt : SelectStatement) (chunkSize now : Int) :
    (p.Plan stmt chunkSize now).finalStmt.sources = stmt.sources ∧
    ((p.Plan stmt chunkSize now).finalStmt.condition = stmt.condition ∨
      (p.Plan stmt chunkSize now).finalStmt.condition = Reduce now stmt.condition) := by
  have hc := gatherShards_condition p now stmt.sources stmt.condition []
  rcases h : gatherShards p now stmt.sources stmt.condition [] with ⟨c', r⟩
  rw [h] at hc
  cases r with
  | error e =>
      rw [Plan_gather_error p stmt chunkSize now c' e h]
      exact ⟨rfl, hc⟩
  | ok shards =>
      rw [Plan_gather_ok p stmt chunkSize now c' shards h, planFromShards_finalStmt]
      exact ⟨rfl, hc⟩

end Tsdb
